import Mathlib

/-!
# FitTrack: weekly statistics and progress report

A shallow embedding of `getStats` and `getProgressReport` of `main.go`, with the
parts of the Go runtime and of the SQLite store they rely on.

Conventions of the embedding:

* Go `int` is the 64-bit two's-complement integer of the 64-bit targets: values
  are `Int`, and every addition, multiplication and division is followed by
  `wrapInt`.
* Go `float64` is IEEE-754 binary64 with round-to-nearest-even.  A finite double
  is represented by the rational number it denotes and every operation rounds
  its exact result with `f64Round`.  Every double of this program is either `0`
  or lies between `2^-63` and `2^63` (quotients and products of counters that
  are Go `int`s), so exponent underflow and overflow never happen and are not
  represented.
* The table `daily_routine` is a list of rows.  For each row the field `Date`
  holds the outcome of SQLite's `date(workout_date)`: the day number of the
  calendar date, or `none` when the text is not a date (`date` yields NULL and
  the comparison in the `WHERE` clause is then not true).  SQLite compares the
  `YYYY-MM-DD` texts, which orders dates exactly like their day numbers.
* `SUM(duration)` is SQLite's integer `sum()`: it adds the durations of the
  selected rows in row order in a 64-bit accumulator and raises "integer
  overflow" when an addition leaves the range (`sqlSum`).  Rows carry integer
  durations, as the field `Duration int` of `RoutineRecord` has it.
* Each of the four `SELECT` statements may fail; the errors returned by
  `Scan` and `Query` are discarded by the source, which leaves the destination
  variable at its previous value, respectively leaves `rows` nil.
-/

namespace FitTrack

/-! ## Go `int` -/

/-- Reduction of an integer to the 64-bit two's-complement range. -/
def wrapInt (x : Int) : Int := (x + 2 ^ 63) % 2 ^ 64 - 2 ^ 63

/-- Go `a + b` on `int`. -/
def intAdd (a b : Int) : Int := wrapInt (a + b)

/-- Go `a * b` on `int`. -/
def intMul (a b : Int) : Int := wrapInt (a * b)

/-- Go `a / b` on `int`: the quotient truncated toward zero. -/
def intQuo (a b : Int) : Int := wrapInt (Int.tdiv a b)

/-! ## Go `float64` -/

/-- Nearest integer to a rational, ties going to the even neighbour. -/
def roundHalfEven (q : ℚ) : ℤ :=
  if q - ⌊q⌋ < 1 / 2 then ⌊q⌋
  else if 1 / 2 < q - ⌊q⌋ then ⌊q⌋ + 1
  else if ⌊q⌋ % 2 = 0 then ⌊q⌋ else ⌊q⌋ + 1

/-- Rounding of an exact value to the nearest double (53 significant bits,
ties to even). -/
def f64Round (q : ℚ) : ℚ :=
  if q = 0 then 0
  else roundHalfEven (q / 2 ^ (Int.log 2 |q| - 52)) * 2 ^ (Int.log 2 |q| - 52)

/-- Go `float64(n)` for an `int` value `n`. -/
def f64OfInt (n : Int) : ℚ := f64Round n

/-- Go `x / y` on `float64`, for `y ≠ 0`. -/
def f64Div (x y : ℚ) : ℚ := f64Round (x / y)

/-- Go `x * y` on `float64`. -/
def f64Mul (x y : ℚ) : ℚ := f64Round (x * y)

/-- Go `int(x)` for a `float64` value `x`: the fraction is discarded.  (Go leaves the
result open when the integer part does not fit an `int`; the only value converted
by this program is `ratio * 30`, which lies in `[0, 30]`.) -/
def f64ToInt (x : ℚ) : Int := if 0 ≤ x then ⌊x⌋ else ⌈x⌉

/-! ## Go `strings` -/

/-- Whether `sub` occurs in `s` as a contiguous run of characters. -/
def containsChars : List Char → List Char → Bool
  | [], sub => sub.isPrefixOf []
  | c :: cs, sub => sub.isPrefixOf (c :: cs) || containsChars cs sub

/-- Go `strings.Contains(s, substr)`. -/
def stringsContains (s substr : String) : Bool := containsChars s.data substr.data

/-- The ASCII part of `strings.ToLower`: the letters `A`-`Z` are mapped to
`a`-`z` and every other character is kept. -/
def asciiToLower (s : String) : String := String.mk (s.data.map Char.toLower)

/-! ## Data model -/

/-- A row of `daily_routine`.  `Date` is the day number that `date(workout_date)`
yields, `none` for a text that is not a date. -/
structure RoutineRecord where
  ID : Int
  Duration : Int
  Date : Option Int
  Category : String
  Meal : String
  deriving DecidableEq

structure DashboardStats where
  TotalWorkouts : Int
  TotalMinutes : Int
  MostTrained : String
  deriving DecidableEq

structure ProgressReport where
  Score : Int
  Level : String
  FoodStatus : String
  Consistency : Int
  deriving DecidableEq

/-! ## The store -/

/-- The four `SELECT` statements issued by `getStats` and `getProgressReport`. -/
inductive Query where
  | count
  | sum
  | top
  | meals
  deriving DecidableEq

/-- State of the store as seen by one request: the rows of `daily_routine`, the
day number of `date('now')`, which of the statements fail, and which of several
equally frequent categories `ORDER BY COUNT(*) DESC LIMIT 1` puts first (SQL
leaves that order open). -/
structure DB where
  rows : List RoutineRecord
  now : Int
  failing : Query → Bool
  tieBreak : Nat

/-- The condition `date(workout_date) >= date('now', '-7 days')`. -/
def inWindow (now : Int) (r : RoutineRecord) : Bool :=
  match r.Date with
  | none => false
  | some d => decide (now - 7 ≤ d)

/-- Rows selected by the `WHERE` clause shared by the four statements. -/
def windowRows (db : DB) : List RoutineRecord := db.rows.filter (inWindow db.now)

/-- Greatest number of occurrences of one of `groups` in `cats`. -/
def maxCount (cats groups : List String) : Nat :=
  (groups.map (fun c => cats.count c)).foldr max 0

/-- The groups that come first under `ORDER BY COUNT(*) DESC`. -/
def topCategories (cats : List String) : List String :=
  cats.dedup.filter (fun c => cats.count c = maxCount cats cats.dedup)

/-- Result of `SELECT COUNT(*) FROM daily_routine WHERE ...`; `none` on failure. -/
def queryCount (db : DB) : Option Int :=
  if db.failing Query.count then none else some (windowRows db).length

/-- One step of SQLite's integer `sum()`: the new running total, or `none` once an
addition has left the 64-bit range. -/
def sumStep (acc : Option Int) (d : Int) : Option Int :=
  match acc with
  | none => none
  | some s => if -2 ^ 63 ≤ s + d ∧ s + d < 2 ^ 63 then some (s + d) else none

/-- SQLite's `COALESCE(SUM(x), 0)` over integer values taken in row order: the
total, `0` for no rows, or `none` when the aggregate raises "integer overflow". -/
def sqlSum (ds : List Int) : Option Int := ds.foldl sumStep (some 0)

/-- Result of `SELECT COALESCE(SUM(duration), 0) FROM daily_routine WHERE ...`;
`none` when the statement fails, be it for the store or for the integer overflow
of the sum. -/
def querySum (db : DB) : Option Int :=
  if db.failing Query.sum then none else sqlSum ((windowRows db).map (·.Duration))

/-- Result of `SELECT category ... GROUP BY category ORDER BY COUNT(*) DESC LIMIT 1`;
`none` on failure and when the statement yields no row. -/
def queryTop (db : DB) : Option String :=
  if db.failing Query.top then none
  else
    let tops := topCategories ((windowRows db).map (·.Category))
    tops.get? (db.tieBreak % tops.length)

/-- Result of `SELECT meal FROM daily_routine WHERE ...`; `none` on failure. -/
def queryMeals (db : DB) : Option (List String) :=
  if db.failing Query.meals then none else some ((windowRows db).map (·.Meal))

/-- Effect of `QueryRow(...).Scan(&dest)` with the error discarded: the value of
the row when there is one, the old content of `dest` otherwise. -/
def scanInto {α : Type} (dest : α) (result : Option α) : α := result.getD dest

/-! ## `getStats` -/

/-- The function `getStats`: three `QueryRow(...).Scan(...)` into the fields of a
zero-valued `DashboardStats`, then the replacement of an empty `MostTrained`. -/
def getStats (db : DB) : DashboardStats :=
  let s : DashboardStats := { TotalWorkouts := 0, TotalMinutes := 0, MostTrained := "" }
  let s := { s with TotalWorkouts := scanInto s.TotalWorkouts (queryCount db) }
  let s := { s with TotalMinutes := scanInto s.TotalMinutes (querySum db) }
  let s := { s with MostTrained := scanInto s.MostTrained (queryTop db) }
  if s.MostTrained = "" then { s with MostTrained := "None" } else s

/-! ## `getProgressReport` -/

/-- The test `strings.Contains(m, "rice") || strings.Contains(m, "apple") ||
strings.Contains(m, "chicken")` applied to `m = strings.ToLower(meal)`.  The
Unicode case tables behind `strings.ToLower` are not part of the repository, so
the lowercase mapping is the parameter `toLower`. -/
def isHealthy (toLower : String → String) (meal : String) : Bool :=
  let m := toLower meal
  stringsContains m "rice" || stringsContains m "apple" || stringsContains m "chicken"

/-- One iteration of the loop over `rows`: the pair is `(healthy, total)`. -/
def mealStep (toLower : String → String) (acc : Int × Int) (meal : String) : Int × Int :=
  let total := intAdd acc.2 1
  if isHealthy toLower meal then (intAdd acc.1 1, total) else (acc.1, total)

/-- The body of `getProgressReport` from `score := 0` to the `return`, given the
value of `getStats()` and the rows delivered by the meal query. -/
def reportOf (toLower : String → String) (stats : DashboardStats) (meals : List String) :
    ProgressReport :=
  let score : Int := 0
  let score :=
    if stats.TotalWorkouts ≥ 4 then intAdd score 40
    else intAdd score (intMul stats.TotalWorkouts 10)
  let score :=
    if stats.TotalMinutes ≥ 180 then intAdd score 30
    else intAdd score (intQuo stats.TotalMinutes 6)
  let counts := meals.foldl (mealStep toLower) (0, 0)
  let healthy := counts.1
  let total := counts.2
  let foodStatus := "Unbalanced"
  let scoreAndStatus : Int × String :=
    if total > 0 then
      let ratio := f64Div (f64OfInt healthy) (f64OfInt total)
      (intAdd score (f64ToInt (f64Mul ratio (f64Round 30))),
        if ratio > f64Round (6 / 10) then "Healthy" else foodStatus)
    else (score, foodStatus)
  let score := scoreAndStatus.1
  let foodStatus := scoreAndStatus.2
  let lvl := "Active"
  let lvl := if score > 80 then "Elite" else if score < 40 then "Beginner" else lvl
  { Score := score, Level := lvl, FoodStatus := foodStatus,
    Consistency := intQuo (intMul stats.TotalWorkouts 100) 4 }

/-- The function `getProgressReport`.  When the meal query fails `rows` is nil and
`rows.Next()` dereferences it: the function panics and returns nothing
(`none`). -/
def getProgressReport (toLower : String → String) (db : DB) : Option ProgressReport :=
  let stats := getStats db
  match queryMeals db with
  | none => none
  | some meals => some (reportOf toLower stats meals)

/-- Value of `int(ratio * 30)` for `healthy = h` and `total = t`, as the doubles
compute it; `0` when there is no meal row. -/
def ratioPoints (h t : ℕ) : ℤ :=
  if t = 0 then 0
  else ⌊f64Round (f64Round (f64Round (h : ℚ) / f64Round (t : ℚ)) * 30)⌋

/-! ## Rounding to a double: order and exactness -/

theorem roundHalfEven_intCast (z : ℤ) : roundHalfEven (z : ℚ) = z := by
  simp [roundHalfEven]

theorem floor_le_roundHalfEven (q : ℚ) : ⌊q⌋ ≤ roundHalfEven q := by
  unfold roundHalfEven
  split_ifs <;> omega

theorem roundHalfEven_le_floor_succ (q : ℚ) : roundHalfEven q ≤ ⌊q⌋ + 1 := by
  unfold roundHalfEven
  split_ifs <;> omega

theorem roundHalfEven_mono {a b : ℚ} (h : a ≤ b) : roundHalfEven a ≤ roundHalfEven b := by
  have hfl : ⌊a⌋ ≤ ⌊b⌋ := Int.floor_mono h
  rcases hfl.lt_or_eq with hlt | heq
  · calc roundHalfEven a ≤ ⌊a⌋ + 1 := roundHalfEven_le_floor_succ a
      _ ≤ ⌊b⌋ := hlt
      _ ≤ roundHalfEven b := floor_le_roundHalfEven b
  · have hq : (⌊a⌋ : ℚ) = ⌊b⌋ := by exact_mod_cast heq
    unfold roundHalfEven
    rw [← heq]
    split_ifs <;> first | omega | (exfalso; linarith)

theorem f64Round_zero : f64Round 0 = 0 := by simp [f64Round]

theorem f64Round_bounds {q : ℚ} (hq : 0 < q) :
    (2 : ℚ) ^ Int.log 2 q ≤ f64Round q ∧ f64Round q ≤ 2 ^ (Int.log 2 q + 1) := by
  have h2 : (0 : ℚ) < 2 := by norm_num
  have hu : (0 : ℚ) < 2 ^ (Int.log 2 q - 52) := zpow_pos h2 _
  have hlo : (2 : ℚ) ^ Int.log 2 q ≤ q := by
    have := Int.zpow_log_le_self (b := 2) (by norm_num) hq
    simpa using this
  have hhi : q < (2 : ℚ) ^ (Int.log 2 q + 1) := by
    have := Int.lt_zpow_succ_log_self (b := 2) (by norm_num) q
    simpa using this
  have e1 : (2 : ℚ) ^ Int.log 2 q = ((2 ^ 52 : ℤ) : ℚ) * 2 ^ (Int.log 2 q - 52) := by
    rw [zpow_sub₀ (by norm_num : (2 : ℚ) ≠ 0)]
    push_cast
    field_simp
    ring
  have e2 : (2 : ℚ) ^ (Int.log 2 q + 1) = ((2 ^ 53 : ℤ) : ℚ) * 2 ^ (Int.log 2 q - 52) := by
    rw [zpow_sub₀ (by norm_num : (2 : ℚ) ≠ 0), zpow_add₀ (by norm_num : (2 : ℚ) ≠ 0)]
    push_cast
    field_simp
    ring
  have hfr : f64Round q = roundHalfEven (q / 2 ^ (Int.log 2 q - 52)) * 2 ^ (Int.log 2 q - 52) := by
    simp [f64Round, hq.ne', abs_of_pos hq]
  have l1 : ((2 ^ 52 : ℤ) : ℚ) ≤ q / 2 ^ (Int.log 2 q - 52) := by
    rw [le_div_iff₀ hu, ← e1]; exact hlo
  have l2 : q / 2 ^ (Int.log 2 q - 52) ≤ ((2 ^ 53 : ℤ) : ℚ) := by
    rw [div_le_iff₀ hu, ← e2]; exact hhi.le
  have r1 := roundHalfEven_mono l1
  have r2 := roundHalfEven_mono l2
  rw [roundHalfEven_intCast] at r1 r2
  rw [hfr, e1, e2]
  constructor
  · exact mul_le_mul_of_nonneg_right (by exact_mod_cast r1) hu.le
  · exact mul_le_mul_of_nonneg_right (by exact_mod_cast r2) hu.le

theorem f64Round_nonneg {q : ℚ} (hq : 0 ≤ q) : 0 ≤ f64Round q := by
  rcases hq.lt_or_eq with h | h
  · exact le_trans (zpow_pos (by norm_num) _).le (f64Round_bounds h).1
  · rw [← h, f64Round_zero]

theorem f64Round_mono {a b : ℚ} (ha : 0 ≤ a) (hab : a ≤ b) : f64Round a ≤ f64Round b := by
  rcases ha.lt_or_eq with ha | ha
  · have hb : 0 < b := lt_of_lt_of_le ha hab
    have hlog : Int.log 2 a ≤ Int.log 2 b := Int.log_mono_right ha hab
    rcases hlog.lt_or_eq with hlt | heq
    · calc f64Round a ≤ 2 ^ (Int.log 2 a + 1) := (f64Round_bounds ha).2
        _ ≤ 2 ^ Int.log 2 b := zpow_le_zpow_right₀ (by norm_num) hlt
        _ ≤ f64Round b := (f64Round_bounds hb).1
    · have hu : (0 : ℚ) < 2 ^ (Int.log 2 b - 52) := zpow_pos (by norm_num) _
      simp only [f64Round, ha.ne', hb.ne', abs_of_pos ha, abs_of_pos hb, if_false, heq]
      apply mul_le_mul_of_nonneg_right _ hu.le
      exact_mod_cast roundHalfEven_mono (div_le_div_of_nonneg_right hab hu.le)
  · rw [← ha, f64Round_zero]; exact f64Round_nonneg (ha ▸ hab)

/-- Natural numbers below `2^53` are doubles. -/
theorem f64Round_natCast {n : ℕ} (hn : n < 2 ^ 53) : f64Round (n : ℚ) = n := by
  rcases Nat.eq_zero_or_pos n with h0 | hpos
  · simp [h0, f64Round_zero]
  have hq : (0 : ℚ) < n := by exact_mod_cast hpos
  have hk : Nat.log 2 n ≤ 52 := by
    have := Nat.log_lt_of_lt_pow hpos.ne' hn
    omega
  obtain ⟨j, hj⟩ : ∃ j : ℕ, (Nat.log 2 n : ℤ) - 52 = -(j : ℤ) := ⟨52 - Nat.log 2 n, by omega⟩
  have hp : (0 : ℚ) < 2 ^ j := pow_pos (by norm_num) _
  have hfr : f64Round (n : ℚ) = roundHalfEven (((n * 2 ^ j : ℤ) : ℚ)) * (2 ^ j)⁻¹ := by
    simp only [f64Round, hq.ne', if_false, abs_of_pos hq, Int.log_natCast, hj, zpow_neg,
      zpow_natCast, div_inv_eq_mul]
    push_cast
    rfl
  rw [hfr, roundHalfEven_intCast]
  push_cast
  field_simp

/-! ## Go `int`: operations that stay in range -/

theorem wrapInt_eq {x : Int} (h1 : -2 ^ 63 ≤ x) (h2 : x < 2 ^ 63) : wrapInt x = x := by
  unfold wrapInt
  omega

theorem tdiv_six (m : Int) :
    Int.tdiv m 6 = if 0 ≤ m then m / 6 else -((-m) / 6) := by
  split_ifs with h
  · exact Int.tdiv_eq_ediv h (by norm_num)
  · have h2 : Int.tdiv (-m) 6 = (-m) / 6 := Int.tdiv_eq_ediv (by omega) (by norm_num)
    rw [Int.neg_tdiv] at h2
    omega

/-! ## The loop over the meal rows -/

theorem foldl_mealStep (toLower : String → String) (meals : List String) :
    ∀ (h t : Int), 0 ≤ h → 0 ≤ t → h + meals.length < 2 ^ 63 → t + meals.length < 2 ^ 63 →
      meals.foldl (mealStep toLower) (h, t)
        = (h + meals.countP (isHealthy toLower), t + meals.length) := by
  induction meals with
  | nil => intro h t _ _ _ _; simp
  | cons a l ih =>
    intro h t h0 t0 hh ht
    simp only [List.length_cons, Nat.cast_add, Nat.cast_one] at hh ht
    have e1 : intAdd t 1 = t + 1 := wrapInt_eq (by omega) (by omega)
    have e2 : intAdd h 1 = h + 1 := wrapInt_eq (by omega) (by omega)
    rw [List.foldl_cons]
    by_cases ha : isHealthy toLower a = true
    · simp only [mealStep, ha, if_true, e1, e2]
      rw [ih (h + 1) (t + 1) (by omega) (by omega) (by omega) (by omega)]
      simp only [List.countP_cons_of_pos _ _ ha, List.length_cons, Nat.cast_add, Nat.cast_one]
      exact Prod.ext (by push_cast; ring) (by push_cast; ring)
    · simp only [mealStep, ha, e1, Bool.false_eq_true, if_false]
      rw [ih h (t + 1) (by omega) (by omega) (by omega) (by omega)]
      simp only [List.countP_cons_of_neg _ _ ha, List.length_cons, Nat.cast_add, Nat.cast_one]
      exact Prod.ext (by push_cast; ring) (by push_cast; ring)

theorem foldl_mealStep_zero (toLower : String → String) (meals : List String)
    (hlen : meals.length < 2 ^ 63) :
    meals.foldl (mealStep toLower) (0, 0)
      = ((meals.countP (isHealthy toLower) : Int), (meals.length : Int)) := by
  have hc : meals.countP (isHealthy toLower) ≤ meals.length := List.countP_le_length _
  have := foldl_mealStep toLower meals 0 0 le_rfl le_rfl (by omega) (by omega)
  simpa using this

/-! ## The nutrition sub-score and the verdict -/

theorem f64Round_thirty : f64Round 30 = 30 := by decide!

theorem f64Round_one : f64Round 1 = 1 := by decide!

/-- Rounding the thirtieths and multiplying back never falls below the numerator. -/
theorem thirtieths_lower :
    ∀ k : ℕ, k < 31 → (k : ℚ) ≤ f64Round (f64Round ((k : ℚ) / 30) * 30) := by decide!

/-- A ratio that is short of `(k+1)/30` by at least `1/(30 * 2^48)` multiplies
back to a double below `k + 1`. -/
theorem thirtieths_upper :
    ∀ k : ℕ, k < 30 →
      f64Round (f64Round (((k : ℚ) + 1) / 30 - 1 / (30 * 2 ^ 48)) * 30) < (k : ℚ) + 1 := by
  decide!

/-- The double next to `0.6` from above is reached within `1/(5 * 2^48)`. -/
theorem sixTenths_upper : f64Round (6 / 10) < f64Round (6 / 10 + 1 / (5 * 2 ^ 48)) := by decide!

theorem nutrition_floor {h t : ℕ} (ht : 0 < t) (hle : h ≤ t) (hb : t ≤ 2 ^ 48) :
    ⌊f64Round (f64Round ((h : ℚ) / t) * 30)⌋ = ⌊(30 : ℚ) * ((h : ℚ) / t)⌋ := by
  have htq : (0 : ℚ) < t := by exact_mod_cast ht
  have hx0 : (0 : ℚ) ≤ (h : ℚ) / t := by positivity
  have hx1 : (h : ℚ) / t ≤ 1 := by
    rw [div_le_one htq]; exact_mod_cast hle
  have hk0 : 0 ≤ ⌊(30 : ℚ) * ((h : ℚ) / t)⌋ := Int.floor_nonneg.2 (by positivity)
  have hk30 : ⌊(30 : ℚ) * ((h : ℚ) / t)⌋ ≤ 30 := by
    have : ⌊(30 : ℚ) * ((h : ℚ) / t)⌋ ≤ ⌊(30 : ℚ)⌋ := Int.floor_mono (by linarith)
    simpa using this
  have hlo := Int.floor_le ((30 : ℚ) * ((h : ℚ) / t))
  have hhi := Int.lt_floor_add_one ((30 : ℚ) * ((h : ℚ) / t))
  generalize ⌊(30 : ℚ) * ((h : ℚ) / t)⌋ = k at hk0 hk30 hlo hhi ⊢
  lift k to ℕ using hk0
  have hk31 : k < 31 := by omega
  simp only [Int.cast_natCast] at hlo hhi
  rw [Int.floor_eq_iff]
  simp only [Int.cast_natCast]
  constructor
  · -- lower bound
    have h1 : (k : ℚ) / 30 ≤ (h : ℚ) / t := by linarith
    have h2 : f64Round ((k : ℚ) / 30) ≤ f64Round ((h : ℚ) / t) :=
      f64Round_mono (by positivity) h1
    have h3 : f64Round ((k : ℚ) / 30) * 30 ≤ f64Round ((h : ℚ) / t) * 30 := by linarith
    have h4 : (0 : ℚ) ≤ f64Round ((k : ℚ) / 30) * 30 := by
      have := f64Round_nonneg (q := (k : ℚ) / 30) (by positivity)
      linarith
    exact le_trans (thirtieths_lower k hk31) (f64Round_mono h4 h3)
  · -- upper bound
    rcases Nat.lt_or_ge k 30 with hk | hk
    · have hz : (30 : ℤ) * h < ((k : ℤ) + 1) * t := by
        have : (30 : ℚ) * h < ((k : ℚ) + 1) * t := by
          have := mul_lt_mul_of_pos_right hhi htq
          rw [mul_assoc, div_mul_cancel₀ _ htq.ne'] at this
          exact this
        exact_mod_cast this
      have hz2 : (30 : ℚ) * h + 1 ≤ ((k : ℚ) + 1) * t := by exact_mod_cast hz
      have hbq : (t : ℚ) ≤ 2 ^ 48 := by exact_mod_cast hb
      have hy : (h : ℚ) / t ≤ ((k : ℚ) + 1) / 30 - 1 / (30 * 2 ^ 48) := by
        rw [div_le_iff₀ htq]
        have : (1 : ℚ) / (30 * 2 ^ 48) * t ≤ 1 / 30 := by
          rw [div_mul_eq_mul_div, div_le_div_iff₀ (by positivity) (by positivity)]
          linarith
        linarith
      have h2 := f64Round_mono hx0 hy
      have h3 : f64Round ((h : ℚ) / t) * 30
          ≤ f64Round (((k : ℚ) + 1) / 30 - 1 / (30 * 2 ^ 48)) * 30 := by linarith
      have h4 : (0 : ℚ) ≤ f64Round ((h : ℚ) / t) * 30 := by
        have := f64Round_nonneg hx0
        linarith
      exact lt_of_le_of_lt (f64Round_mono h4 h3) (thirtieths_upper k hk)
    · have h2 := f64Round_mono hx0 hx1
      rw [f64Round_one] at h2
      have h3 : f64Round ((h : ℚ) / t) * 30 ≤ 30 := by linarith
      have h4 : (0 : ℚ) ≤ f64Round ((h : ℚ) / t) * 30 := by
        have := f64Round_nonneg hx0
        linarith
      have h5 := f64Round_mono h4 h3
      rw [f64Round_thirty] at h5
      have : (30 : ℚ) ≤ k := by exact_mod_cast hk
      linarith

theorem verdict_iff {h t : ℕ} (ht : 0 < t) (hb : t ≤ 2 ^ 48) :
    f64Round ((h : ℚ) / t) > f64Round (6 / 10) ↔ 3 * t < 5 * h := by
  have htq : (0 : ℚ) < t := by exact_mod_cast ht
  have hx0 : (0 : ℚ) ≤ (h : ℚ) / t := by positivity
  constructor
  · intro hgt
    by_contra hnot
    have hle : 5 * h ≤ 3 * t := by omega
    have hq : (5 : ℚ) * h ≤ 3 * t := by exact_mod_cast hle
    have hx : (h : ℚ) / t ≤ 6 / 10 := by
      rw [div_le_iff₀ htq]; linarith
    have := f64Round_mono hx0 hx
    exact absurd hgt (not_lt.2 this)
  · intro hlt
    have hq : (3 : ℚ) * t + 1 ≤ 5 * h := by exact_mod_cast hlt
    have hbq : (t : ℚ) ≤ 2 ^ 48 := by exact_mod_cast hb
    have hz : (6 : ℚ) / 10 + 1 / (5 * 2 ^ 48) ≤ (h : ℚ) / t := by
      rw [le_div_iff₀ htq]
      have : (1 : ℚ) / (5 * 2 ^ 48) * t ≤ 1 / 5 := by
        rw [div_mul_eq_mul_div, div_le_div_iff₀ (by positivity) (by positivity)]
        linarith
      linarith
    exact lt_of_lt_of_le sixTenths_upper (f64Round_mono (by positivity) hz)

theorem f64Round_pos {q : ℚ} (hq : 0 < q) : 0 < f64Round q :=
  lt_of_lt_of_le (zpow_pos (by norm_num) _) (f64Round_bounds hq).1

theorem ratio_product_range {h t : ℕ} (ht : 0 < t) (hle : h ≤ t) :
    0 ≤ f64Round (f64Round (f64Round (h : ℚ) / f64Round (t : ℚ)) * 30) ∧
      f64Round (f64Round (f64Round (h : ℚ) / f64Round (t : ℚ)) * 30) ≤ 30 := by
  have htq : (0 : ℚ) < t := by exact_mod_cast ht
  have hhq : (0 : ℚ) ≤ h := by positivity
  have hFt : 0 < f64Round (t : ℚ) := f64Round_pos htq
  have hFh : 0 ≤ f64Round (h : ℚ) := f64Round_nonneg hhq
  have hle2 : f64Round (h : ℚ) ≤ f64Round (t : ℚ) :=
    f64Round_mono hhq (by exact_mod_cast hle)
  have hx0 : 0 ≤ f64Round (h : ℚ) / f64Round (t : ℚ) := div_nonneg hFh hFt.le
  have hx1 : f64Round (h : ℚ) / f64Round (t : ℚ) ≤ 1 := (div_le_one hFt).2 hle2
  have hr0 := f64Round_nonneg hx0
  have hr1 := f64Round_mono hx0 hx1
  rw [f64Round_one] at hr1
  have hp0 : 0 ≤ f64Round (f64Round (h : ℚ) / f64Round (t : ℚ)) * 30 := by linarith
  have hp1 : f64Round (f64Round (h : ℚ) / f64Round (t : ℚ)) * 30 ≤ 30 := by linarith
  refine ⟨f64Round_nonneg hp0, ?_⟩
  have := f64Round_mono hp0 hp1
  rwa [f64Round_thirty] at this

theorem ratioPoints_range {h t : ℕ} (hle : h ≤ t) :
    0 ≤ ratioPoints h t ∧ ratioPoints h t ≤ 30 := by
  unfold ratioPoints
  split_ifs with h0
  · simp
  · have ht : 0 < t := Nat.pos_of_ne_zero h0
    obtain ⟨h1, h2⟩ := ratio_product_range ht hle
    refine ⟨Int.floor_nonneg.2 h1, ?_⟩
    have : ⌊f64Round (f64Round (f64Round (h : ℚ) / f64Round (t : ℚ)) * 30)⌋ ≤ ⌊(30 : ℚ)⌋ :=
      Int.floor_mono h2
    simpa using this

theorem ratioPoints_exact {h t : ℕ} (hle : h ≤ t) (hb : t ≤ 2 ^ 48) :
    ratioPoints h t = if t = 0 then 0 else ⌊(30 : ℚ) * ((h : ℚ) / t)⌋ := by
  unfold ratioPoints
  split_ifs with h0
  · rfl
  · have ht : 0 < t := Nat.pos_of_ne_zero h0
    have e1 : f64Round (h : ℚ) = h := f64Round_natCast (by omega)
    have e2 : f64Round (t : ℚ) = t := f64Round_natCast (by omega)
    rw [e1, e2]
    exact nutrition_floor ht hle hb

set_option maxRecDepth 1000000 in
/-- The bound `2^48` on the number of meal rows is needed for the exact floor:
with 291343282932107 rows, slightly more than `2^48`, of which 223363183581282
are healthy, the doubles give 23 points where the floor of the exact ratio
gives 22. -/
theorem ratioPoints_beyond_bound :
    (2 : ℕ) ^ 48 < 291343282932107 ∧
    ratioPoints 223363183581282 291343282932107 = 23 ∧
    ⌊(30 : ℚ) * ((223363183581282 : ℚ) / 291343282932107)⌋ = 22 := by
  have h1 : ⌊f64Round (f64Round ((223363183581282 : ℚ) / 291343282932107) * 30)⌋ = 23 := by
    decide!
  have e1 : f64Round ((223363183581282 : ℕ) : ℚ) = ((223363183581282 : ℕ) : ℚ) :=
    f64Round_natCast (by norm_num)
  have e2 : f64Round ((291343282932107 : ℕ) : ℚ) = ((291343282932107 : ℕ) : ℚ) :=
    f64Round_natCast (by norm_num)
  refine ⟨by norm_num, ?_, by decide!⟩
  unfold ratioPoints
  rw [if_neg (by norm_num), e1, e2]
  simpa using h1

theorem score_closed (toLower : String → String) (w m : Int) (mt : String)
    (meals : List String) (hlen : meals.length < 2 ^ 63) (hw : -2 ^ 59 ≤ w)
    (hm : -2 ^ 63 ≤ m) :
    (reportOf toLower ⟨w, m, mt⟩ meals).Score
      = (if 4 ≤ w then 40 else 10 * w) + (if 180 ≤ m then 30 else Int.tdiv m 6)
        + ratioPoints (meals.countP (isHealthy toLower)) meals.length := by
  have hc : meals.countP (isHealthy toLower) ≤ meals.length := List.countP_le_length _
  have hr := ratioPoints_range hc
  have hq := tdiv_six m
  simp only [reportOf, foldl_mealStep_zero toLower meals hlen, f64OfInt, f64Div, f64Mul,
    f64ToInt, f64Round_thirty, Int.cast_natCast, intAdd, intMul, intQuo, ge_iff_le, gt_iff_lt]
  by_cases ht : meals.length = 0
  · simp only [ht, ratioPoints, Nat.cast_zero, lt_irrefl, if_false, if_true, add_zero]
    unfold wrapInt
    split_ifs at hq ⊢ <;> omega
  · have htp : 0 < meals.length := Nat.pos_of_ne_zero ht
    have htz : (0 : ℤ) < (meals.length : ℤ) := by exact_mod_cast htp
    obtain ⟨p0, p1⟩ := ratio_product_range htp hc
    simp only [ratioPoints, ht, if_false] at hr ⊢
    simp only [htz, if_true, p0]
    unfold wrapInt
    split_ifs at hq ⊢ <;> omega

theorem verdict_closed (toLower : String → String) (stats : DashboardStats)
    (meals : List String) (hlen : meals.length ≤ 2 ^ 48) :
    (reportOf toLower stats meals).FoodStatus
      = if 0 < meals.length ∧ 3 * meals.length < 5 * meals.countP (isHealthy toLower)
        then "Healthy" else "Unbalanced" := by
  have hc : meals.countP (isHealthy toLower) ≤ meals.length := List.countP_le_length _
  have e1 : f64Round (meals.countP (isHealthy toLower) : ℚ) = meals.countP (isHealthy toLower) :=
    f64Round_natCast (by omega)
  have e2 : f64Round (meals.length : ℚ) = meals.length := f64Round_natCast (by omega)
  simp only [reportOf, foldl_mealStep_zero toLower meals (by omega), f64OfInt, f64Div,
    Int.cast_natCast, e1, e2, gt_iff_lt]
  by_cases ht : 0 < meals.length
  · have htz : (0 : ℤ) < (meals.length : ℤ) := by exact_mod_cast ht
    have hv := verdict_iff (h := meals.countP (isHealthy toLower)) ht hlen
    simp only [htz, if_true, ht, true_and]
    by_cases h35 : 3 * meals.length < 5 * meals.countP (isHealthy toLower)
    · simp only [h35, if_true, hv.2 h35]
    · have : ¬ f64Round (6 / 10)
          < f64Round ((meals.countP (isHealthy toLower) : ℚ) / (meals.length : ℚ)) :=
        fun hgt => h35 (hv.1 hgt)
      simp only [h35, if_false, this]
  · have htz : ¬ (0 : ℤ) < (meals.length : ℤ) := by exact_mod_cast ht
    simp only [htz, if_false, ht, false_and]

/-! ## The claims about the score, the level, the verdict and the consistency -/

/-- C1. For `w ≥ 0` workouts, `m ≥ 0` minutes and a list of meal strings (at most
`2^48` of them, more rows than an SQLite file of the largest size has bytes) with
`t` entries of which `h` are healthy, the score is `(40 if w ≥ 4 else 10*w) + (30 if m ≥ 180
else floor(m/6)) + (0 if t = 0 else floor(30*h/t))`, the last floor being taken
over the exact ratio although the code computes it with doubles. -/
theorem score_formula (toLower : String → String) (w m : Int) (mt : String)
    (meals : List String) (hw : 0 ≤ w) (hm : 0 ≤ m) (hlen : meals.length ≤ 2 ^ 48) :
    (reportOf toLower ⟨w, m, mt⟩ meals).Score
      = (if 4 ≤ w then 40 else 10 * w) + (if 180 ≤ m then 30 else m / 6)
        + (if meals.length = 0 then 0
           else ⌊(30 : ℚ) * ((meals.countP (isHealthy toLower) : ℚ) / (meals.length : ℚ))⌋) := by
  have hc : meals.countP (isHealthy toLower) ≤ meals.length := List.countP_le_length _
  rw [score_closed toLower w m mt meals (by omega) (by omega) (by omega),
    ratioPoints_exact hc hlen, Int.tdiv_eq_ediv hm (by norm_num)]

theorem score_formula_witness :
    (0 : Int) ≤ 4 ∧ (0 : Int) ≤ 200 ∧ ["grilled chicken", "rice bowl", "pizza"].length ≤ 2 ^ 48 ∧
    (reportOf asciiToLower ⟨4, 200, "Run"⟩ ["grilled chicken", "rice bowl", "pizza"]).Score
      = (if (4 : Int) ≤ 4 then 40 else 10 * 4) + (if (180 : Int) ≤ 200 then 30 else 200 / 6)
        + (if ["grilled chicken", "rice bowl", "pizza"].length = 0 then 0
           else ⌊(30 : ℚ) * ((["grilled chicken", "rice bowl", "pizza"].countP
              (isHealthy asciiToLower) : ℚ)
                / (["grilled chicken", "rice bowl", "pizza"].length : ℚ))⌋) :=
  ⟨by decide, by decide, by decide,
    score_formula asciiToLower 4 200 "Run" ["grilled chicken", "rice bowl", "pizza"]
      (by decide) (by decide) (by decide)⟩

/-- C2. For non-negative `totalWorkouts` and `totalMinutes` and every list of meal
strings (of a length that a Go `int` can count), the score lies in `[0, 100]`. -/
theorem score_range (toLower : String → String) (stats : DashboardStats)
    (meals : List String) (hw : 0 ≤ stats.TotalWorkouts) (hm : 0 ≤ stats.TotalMinutes)
    (hlen : meals.length < 2 ^ 63) :
    0 ≤ (reportOf toLower stats meals).Score ∧ (reportOf toLower stats meals).Score ≤ 100 := by
  obtain ⟨w, m, mt⟩ := stats
  simp only at hw hm
  have hc : meals.countP (isHealthy toLower) ≤ meals.length := List.countP_le_length _
  have hr := ratioPoints_range hc
  have hq := tdiv_six m
  rw [score_closed toLower w m mt meals hlen (by omega) (by omega)]
  split_ifs at hq ⊢ <;> omega

theorem score_range_witness :
    (0 : Int) ≤ (⟨1, 10, "Run"⟩ : DashboardStats).TotalWorkouts ∧
    (0 : Int) ≤ (⟨1, 10, "Run"⟩ : DashboardStats).TotalMinutes ∧
    ["Apple pie", "toast"].length < 2 ^ 63 ∧
    0 ≤ (reportOf asciiToLower ⟨1, 10, "Run"⟩ ["Apple pie", "toast"]).Score ∧
    (reportOf asciiToLower ⟨1, 10, "Run"⟩ ["Apple pie", "toast"]).Score ≤ 100 :=
  ⟨by decide, by decide, by decide,
    score_range asciiToLower ⟨1, 10, "Run"⟩ ["Apple pie", "toast"]
      (by decide) (by decide) (by decide)⟩

/-- C3. The level is "Elite" exactly when the score exceeds 80, "Beginner" exactly
when the score is below 40 and "Active" in every other case, in particular at the
scores 40 and 80. -/
theorem level_thresholds (toLower : String → String) (stats : DashboardStats)
    (meals : List String) :
    ((reportOf toLower stats meals).Level = "Elite"
        ↔ (reportOf toLower stats meals).Score > 80) ∧
    ((reportOf toLower stats meals).Level = "Beginner"
        ↔ (reportOf toLower stats meals).Score < 40) ∧
    ((reportOf toLower stats meals).Level = "Active"
        ↔ 40 ≤ (reportOf toLower stats meals).Score ∧ (reportOf toLower stats meals).Score ≤ 80) ∧
    ((reportOf toLower stats meals).Score = 40 → (reportOf toLower stats meals).Level = "Active") ∧
    ((reportOf toLower stats meals).Score = 80 → (reportOf toLower stats meals).Level = "Active") := by
  have hl : (reportOf toLower stats meals).Level
      = if (reportOf toLower stats meals).Score > 80 then "Elite"
        else if (reportOf toLower stats meals).Score < 40 then "Beginner" else "Active" := rfl
  rw [hl]
  generalize (reportOf toLower stats meals).Score = s
  have n1 : "Elite" ≠ "Beginner" := by decide
  have n2 : "Elite" ≠ "Active" := by decide
  have n3 : "Beginner" ≠ "Active" := by decide
  split_ifs with h1 h2
  · simp [n1, n2]; omega
  · simp [n1.symm, n3]; omega
  · simp [n2.symm, n3.symm]; omega

/-- C4. With `t` meal rows (at most `2^48`) of which `h` are healthy, the verdict
is "Healthy" exactly when `t > 0` and `h/t > 0.6`, that is `5*h > 3*t`, and
"Unbalanced" otherwise; without meal rows the verdict is "Unbalanced" and nothing
is added to the workout and duration points. -/
theorem foodStatus_verdict (toLower : String → String) (stats : DashboardStats)
    (meals : List String) (hlen : meals.length ≤ 2 ^ 48) :
    ((reportOf toLower stats meals).FoodStatus = "Healthy"
        ↔ 0 < meals.length ∧
          (6 : ℚ) / 10 < (meals.countP (isHealthy toLower) : ℚ) / (meals.length : ℚ)) ∧
    ((reportOf toLower stats meals).FoodStatus = "Healthy"
        ↔ 0 < meals.length ∧ 5 * meals.countP (isHealthy toLower) > 3 * meals.length) ∧
    ((reportOf toLower stats meals).FoodStatus ≠ "Healthy"
        → (reportOf toLower stats meals).FoodStatus = "Unbalanced") ∧
    (meals.length = 0 →
      (reportOf toLower stats meals).FoodStatus = "Unbalanced" ∧
      (reportOf toLower stats meals).Score
        = intAdd (if stats.TotalWorkouts ≥ 4 then intAdd 0 40
                  else intAdd 0 (intMul stats.TotalWorkouts 10))
            (if stats.TotalMinutes ≥ 180 then 30 else intQuo stats.TotalMinutes 6)) := by
  have hv := verdict_closed toLower stats meals hlen
  have n1 : "Unbalanced" ≠ "Healthy" := by decide
  have key : (reportOf toLower stats meals).FoodStatus = "Healthy"
      ↔ 0 < meals.length ∧ 5 * meals.countP (isHealthy toLower) > 3 * meals.length := by
    rw [hv]
    split_ifs with h
    · simp only [true_iff]; exact h
    · simp only [n1, false_iff]; exact h
  refine ⟨?_, key, ?_, ?_⟩
  · rw [key]
    constructor
    · rintro ⟨ht, h35⟩
      refine ⟨ht, ?_⟩
      have htq : (0 : ℚ) < meals.length := by exact_mod_cast ht
      rw [lt_div_iff₀ htq]
      have : (3 : ℚ) * meals.length < 5 * meals.countP (isHealthy toLower) := by
        exact_mod_cast h35
      linarith
    · rintro ⟨ht, hq⟩
      refine ⟨ht, ?_⟩
      have htq : (0 : ℚ) < meals.length := by exact_mod_cast ht
      rw [lt_div_iff₀ htq] at hq
      have : (3 : ℚ) * meals.length < 5 * meals.countP (isHealthy toLower) := by linarith
      exact_mod_cast this
  · intro hne
    rw [hv] at hne ⊢
    split_ifs at hne ⊢ with h
    · exact absurd rfl hne
    · rfl
  · intro h0
    have hnil : meals = [] := List.length_eq_zero.1 h0
    subst hnil
    refine ⟨rfl, ?_⟩
    simp only [reportOf, List.foldl_nil, lt_irrefl, if_false]
    split_ifs <;> rfl

theorem foodStatus_verdict_witness :
    ["rice", "Apple", "chicken soup", "soda", "chips"].length ≤ 2 ^ 48 ∧
    (((reportOf asciiToLower ⟨2, 60, "Run"⟩
          ["rice", "Apple", "chicken soup", "soda", "chips"]).FoodStatus = "Healthy"
        ↔ 0 < ["rice", "Apple", "chicken soup", "soda", "chips"].length ∧
          (6 : ℚ) / 10 < (["rice", "Apple", "chicken soup", "soda", "chips"].countP
              (isHealthy asciiToLower) : ℚ)
            / (["rice", "Apple", "chicken soup", "soda", "chips"].length : ℚ)) ∧
    ((reportOf asciiToLower ⟨2, 60, "Run"⟩
          ["rice", "Apple", "chicken soup", "soda", "chips"]).FoodStatus = "Healthy"
        ↔ 0 < ["rice", "Apple", "chicken soup", "soda", "chips"].length ∧
          5 * ["rice", "Apple", "chicken soup", "soda", "chips"].countP (isHealthy asciiToLower)
            > 3 * ["rice", "Apple", "chicken soup", "soda", "chips"].length) ∧
    ((reportOf asciiToLower ⟨2, 60, "Run"⟩
          ["rice", "Apple", "chicken soup", "soda", "chips"]).FoodStatus ≠ "Healthy"
        → (reportOf asciiToLower ⟨2, 60, "Run"⟩
          ["rice", "Apple", "chicken soup", "soda", "chips"]).FoodStatus = "Unbalanced") ∧
    (["rice", "Apple", "chicken soup", "soda", "chips"].length = 0 →
      (reportOf asciiToLower ⟨2, 60, "Run"⟩
          ["rice", "Apple", "chicken soup", "soda", "chips"]).FoodStatus = "Unbalanced" ∧
      (reportOf asciiToLower ⟨2, 60, "Run"⟩
          ["rice", "Apple", "chicken soup", "soda", "chips"]).Score
        = intAdd (if (⟨2, 60, "Run"⟩ : DashboardStats).TotalWorkouts ≥ 4 then intAdd 0 40
                  else intAdd 0 (intMul (⟨2, 60, "Run"⟩ : DashboardStats).TotalWorkouts 10))
            (if (⟨2, 60, "Run"⟩ : DashboardStats).TotalMinutes ≥ 180 then 30
             else intQuo (⟨2, 60, "Run"⟩ : DashboardStats).TotalMinutes 6))) ∧
    (reportOf asciiToLower ⟨2, 60, "Run"⟩
      ["rice", "Apple", "chicken soup", "soda", "chips"]).FoodStatus = "Unbalanced" :=
  ⟨by decide,
    foodStatus_verdict asciiToLower ⟨2, 60, "Run"⟩
      ["rice", "Apple", "chicken soup", "soda", "chips"] (by decide),
    by decide!⟩

/-- C5. For `w ≥ 0` workouts (with `w * 100` inside the range of a Go `int`) the
consistency is `floor(w*100/4) = 25*w`: it is non-negative, it is the same for all
durations, categories and meals, and it is not capped at 100: 10 workouts give
250, 4 give 100 and 1 gives 25. -/
theorem consistency_formula (toLower : String → String) (w m m' : Int) (mt mt' : String)
    (meals meals' : List String) (hw : 0 ≤ w) (hfit : w * 100 < 2 ^ 63) :
    (reportOf toLower ⟨w, m, mt⟩ meals).Consistency = w * 100 / 4 ∧
    (reportOf toLower ⟨w, m, mt⟩ meals).Consistency = 25 * w ∧
    0 ≤ (reportOf toLower ⟨w, m, mt⟩ meals).Consistency ∧
    (reportOf toLower ⟨w, m, mt⟩ meals).Consistency
      = (reportOf toLower ⟨w, m', mt'⟩ meals').Consistency ∧
    (reportOf toLower ⟨10, m, mt⟩ meals).Consistency = 250 ∧
    (reportOf toLower ⟨4, m, mt⟩ meals).Consistency = 100 ∧
    (reportOf toLower ⟨1, m, mt⟩ meals).Consistency = 25 := by
  have hc : (reportOf toLower ⟨w, m, mt⟩ meals).Consistency = intQuo (intMul w 100) 4 := rfl
  have e1 : intMul w 100 = w * 100 := wrapInt_eq (by omega) (by omega)
  have e2 : Int.tdiv (w * 100) 4 = w * 100 / 4 := Int.tdiv_eq_ediv (by omega) (by norm_num)
  have e3 : intQuo (w * 100) 4 = w * 100 / 4 := by
    unfold intQuo
    rw [e2]
    exact wrapInt_eq (by omega) (by omega)
  refine ⟨?_, ?_, ?_, rfl, ?_, ?_, ?_⟩
  · rw [hc, e1, e3]
  · rw [hc, e1, e3]
    omega
  · rw [hc, e1, e3]
    omega
  · show intQuo (intMul 10 100) 4 = 250
    decide
  · show intQuo (intMul 4 100) 4 = 100
    decide
  · show intQuo (intMul 1 100) 4 = 25
    decide

theorem consistency_formula_witness :
    (0 : Int) ≤ 10 ∧ (10 : Int) * 100 < 2 ^ 63 ∧
    (reportOf asciiToLower ⟨10, 45, "Run"⟩ ["pizza"]).Consistency = 10 * 100 / 4 ∧
    (reportOf asciiToLower ⟨10, 45, "Run"⟩ ["pizza"]).Consistency = 25 * 10 ∧
    0 ≤ (reportOf asciiToLower ⟨10, 45, "Run"⟩ ["pizza"]).Consistency ∧
    (reportOf asciiToLower ⟨10, 45, "Run"⟩ ["pizza"]).Consistency
      = (reportOf asciiToLower ⟨10, 600, "Lift"⟩ ["rice", "apple"]).Consistency ∧
    (reportOf asciiToLower ⟨10, 45, "Run"⟩ ["pizza"]).Consistency = 250 ∧
    (reportOf asciiToLower ⟨4, 45, "Run"⟩ ["pizza"]).Consistency = 100 ∧
    (reportOf asciiToLower ⟨1, 45, "Run"⟩ ["pizza"]).Consistency = 25 :=
  ⟨by decide, by decide,
    consistency_formula asciiToLower 10 45 600 "Run" "Lift" ["pizza"] ["rice", "apple"]
      (by decide) (by decide)⟩

/-- C10. For a fixed list of meal strings the score does not decrease when
`totalWorkouts` or `totalMinutes` grows: `w ≤ w'` and `m ≤ m'` give
`score(w, m) ≤ score(w', m')`, across the caps at 4 workouts and 180 minutes as
well, for all Go `int` values whose sub-scores stay inside the `int` range. -/
theorem score_monotone (toLower : String → String) (w w' m m' : Int) (mt mt' : String)
    (meals : List String) (hw : w ≤ w') (hm : m ≤ m') (hwlo : -2 ^ 59 ≤ w)
    (hmlo : -2 ^ 63 ≤ m) (hlen : meals.length < 2 ^ 63) :
    (reportOf toLower ⟨w, m, mt⟩ meals).Score ≤ (reportOf toLower ⟨w', m', mt'⟩ meals).Score := by
  have hq := tdiv_six m
  have hq' := tdiv_six m'
  rw [score_closed toLower w m mt meals hlen hwlo hmlo,
    score_closed toLower w' m' mt' meals hlen (by omega) (by omega)]
  split_ifs at hq hq' ⊢ <;> omega

theorem score_monotone_witness :
    (3 : Int) ≤ 4 ∧ (179 : Int) ≤ 180 ∧ -2 ^ 59 ≤ (3 : Int) ∧ -2 ^ 63 ≤ (179 : Int) ∧
    ["rice", "soda"].length < 2 ^ 63 ∧
    (reportOf asciiToLower ⟨3, 179, "Run"⟩ ["rice", "soda"]).Score
      ≤ (reportOf asciiToLower ⟨4, 180, "Run"⟩ ["rice", "soda"]).Score :=
  ⟨by decide, by decide, by decide, by decide, by decide,
    score_monotone asciiToLower 3 4 179 180 "Run" "Run" ["rice", "soda"]
      (by decide) (by decide) (by decide) (by decide) (by decide)⟩

/-! ## The store: window, grouping and failures -/

theorem inWindow_iff (now : Int) (r : RoutineRecord) :
    inWindow now r = true ↔ ∃ d, r.Date = some d ∧ now - 7 ≤ d := by
  unfold inWindow
  cases h : r.Date with
  | none => simp
  | some d => simp

theorem windowRows_insert (now : Int) (failing : Query → Bool) (tie : Nat)
    (pre post : List RoutineRecord) (r : RoutineRecord) :
    windowRows ⟨pre ++ r :: post, now, failing, tie⟩
      = windowRows ⟨pre, now, failing, tie⟩ ++ (if inWindow now r then [r] else [])
        ++ windowRows ⟨post, now, failing, tie⟩ := by
  simp only [windowRows, List.filter_append, List.filter_cons]
  split_ifs <;> simp

theorem windowRows_append (now : Int) (failing : Query → Bool) (tie : Nat)
    (pre post : List RoutineRecord) :
    windowRows ⟨pre ++ post, now, failing, tie⟩
      = windowRows ⟨pre, now, failing, tie⟩ ++ windowRows ⟨post, now, failing, tie⟩ := by
  simp only [windowRows, List.filter_append]

theorem getStats_totalWorkouts (db : DB) (h : db.failing Query.count = false) :
    (getStats db).TotalWorkouts = (windowRows db).length := by
  unfold getStats
  simp only [queryCount, h, scanInto, Bool.false_eq_true, if_false, Option.getD_some]
  split_ifs <;> rfl

theorem foldl_sumStep_none (ds : List Int) : ds.foldl sumStep none = none := by
  induction ds with
  | nil => rfl
  | cons d l ih => simpa [List.foldl_cons, sumStep] using ih

theorem foldl_sumStep_some (ds : List Int) :
    ∀ (a s : Int), ds.foldl sumStep (some a) = some s → s = a + ds.sum := by
  induction ds with
  | nil => intro a s h; simpa using h.symm
  | cons d l ih =>
    intro a s h
    rw [List.foldl_cons] at h
    by_cases hr : -2 ^ 63 ≤ a + d ∧ a + d < 2 ^ 63
    · simp only [sumStep, hr, and_self, if_true] at h
      rw [ih (a + d) s h, List.sum_cons]
      ring
    · simp only [sumStep, hr, if_false] at h
      rw [foldl_sumStep_none] at h
      exact absurd h (by simp)

/-- A sum that SQLite delivers is the sum of the values. -/
theorem sqlSum_eq_sum {ds : List Int} {s : Int} (h : sqlSum ds = some s) : s = ds.sum := by
  have := foldl_sumStep_some ds 0 s h
  simpa using this

theorem getStats_totalMinutes (db : DB) (h : db.failing Query.sum = false) :
    (getStats db).TotalMinutes = (sqlSum ((windowRows db).map (·.Duration))).getD 0 := by
  unfold getStats
  simp only [querySum, h, scanInto, Bool.false_eq_true, if_false]
  split_ifs <;> rfl

/-- When the `SUM` query succeeds, `TotalMinutes` is the sum of the durations of
the rows in the window. -/
theorem getStats_totalMinutes_of_isSome (db : DB) (h : db.failing Query.sum = false)
    (hs : (querySum db).isSome = true) :
    (getStats db).TotalMinutes = ((windowRows db).map (·.Duration)).sum := by
  rw [getStats_totalMinutes db h]
  simp only [querySum, h, Bool.false_eq_true, if_false] at hs
  obtain ⟨s, hsome⟩ := Option.isSome_iff_exists.1 hs
  rw [hsome, Option.getD_some]
  exact sqlSum_eq_sum hsome

theorem getStats_mostTrained (db : DB) :
    (getStats db).MostTrained
      = if (queryTop db).getD "" = "" then "None" else (queryTop db).getD "" := by
  unfold getStats
  simp only [scanInto]
  split_ifs <;> rfl

theorem count_le_maxCount (cats : List String) :
    ∀ (groups : List String) (c : String), c ∈ groups → cats.count c ≤ maxCount cats groups := by
  intro groups
  induction groups with
  | nil => intro c hc; simp at hc
  | cons g gs ih =>
    intro c hc
    simp only [maxCount, List.map_cons, List.foldr_cons] at ih ⊢
    rcases List.mem_cons.1 hc with rfl | hmem
    · exact le_max_left _ _
    · exact le_trans (ih c hmem) (le_max_right _ _)

theorem exists_count_eq_maxCount (cats : List String) :
    ∀ (groups : List String), groups ≠ [] →
      ∃ c ∈ groups, cats.count c = maxCount cats groups := by
  intro groups
  induction groups with
  | nil => intro h; exact absurd rfl h
  | cons g gs ih =>
    intro _
    simp only [maxCount, List.map_cons, List.foldr_cons] at ih ⊢
    by_cases hgs : gs = []
    · subst hgs
      exact ⟨g, List.mem_cons_self _ _, by simp⟩
    · obtain ⟨c, hc, hcount⟩ := ih hgs
      rcases le_total (List.foldr max 0 (gs.map fun c => cats.count c)) (cats.count g) with hle | hle
      · exact ⟨g, List.mem_cons_self _ _, (max_eq_left hle).symm⟩
      · exact ⟨c, List.mem_cons_of_mem _ hc, by rw [hcount, max_eq_right hle]⟩

theorem mem_topCategories {cats : List String} {c : String} (hc : c ∈ topCategories cats) :
    c ∈ cats ∧ ∀ c', cats.count c' ≤ cats.count c := by
  simp only [topCategories, List.mem_filter, List.mem_dedup, decide_eq_true_eq] at hc
  refine ⟨hc.1, fun c' => ?_⟩
  rw [hc.2]
  by_cases hmem : c' ∈ cats
  · exact count_le_maxCount cats cats.dedup c' (List.mem_dedup.2 hmem)
  · rw [List.count_eq_zero_of_not_mem hmem]
    exact Nat.zero_le _

theorem topCategories_ne_nil {cats : List String} (h : cats ≠ []) : topCategories cats ≠ [] := by
  have hd : cats.dedup ≠ [] := by
    intro hnil
    obtain ⟨a, l, rfl⟩ := List.exists_cons_of_ne_nil h
    have : a ∈ (a :: l).dedup := List.mem_dedup.2 (List.mem_cons_self _ _)
    rw [hnil] at this
    simp at this
  obtain ⟨c, hc, hcount⟩ := exists_count_eq_maxCount cats cats.dedup hd
  intro hnil
  have : c ∈ topCategories cats := by
    simp only [topCategories, List.mem_filter, decide_eq_true_eq]
    exact ⟨hc, hcount⟩
  rw [hnil] at this
  simp at this

theorem topCategories_nil : topCategories [] = [] := by
  simp [topCategories]

theorem queryTop_spec (db : DB) (hok : db.failing Query.top = false) :
    (windowRows db = [] → queryTop db = none) ∧
    (windowRows db ≠ [] → ∃ c, queryTop db = some c ∧
      c ∈ (windowRows db).map (·.Category) ∧
      ∀ c', ((windowRows db).map (·.Category)).count c'
        ≤ ((windowRows db).map (·.Category)).count c) := by
  constructor
  · intro hnil
    simp [queryTop, hok, hnil, topCategories_nil]
  · intro hne
    have hcats : (windowRows db).map (·.Category) ≠ [] := by
      simpa using hne
    have htops := topCategories_ne_nil hcats
    have hpos : 0 < (topCategories ((windowRows db).map (·.Category))).length :=
      List.length_pos.2 htops
    have hlt := Nat.mod_lt db.tieBreak hpos
    refine ⟨(topCategories ((windowRows db).map (·.Category))).get ⟨_, hlt⟩, ?_, ?_⟩
    · simp only [queryTop, hok, Bool.false_eq_true, if_false]
      exact List.get?_eq_get hlt
    · exact mem_topCategories (List.get_mem _ _ _)

/-- An overflowing `SUM` leaves `TotalMinutes` at zero: with the durations
`2^63 - 1` and `1`, and with `-2^63` and `-1`, the query fails, the error of
`Scan` is dropped and the two rows are still counted. -/
theorem getStats_sum_overflow :
    getStats ⟨[⟨1, 9223372036854775807, some 100, "Run", "rice"⟩,
        ⟨2, 1, some 100, "Run", "rice"⟩], 100, fun _ => false, 0⟩ = ⟨2, 0, "Run"⟩ ∧
    getStats ⟨[⟨1, -9223372036854775808, some 100, "Run", "rice"⟩,
        ⟨2, -1, some 100, "Run", "rice"⟩], 100, fun _ => false, 0⟩ = ⟨2, 0, "Run"⟩ := by
  decide

theorem getStats_mostTrained_of_window (db : DB) (hok : db.failing Query.top = false)
    (hne : windowRows db ≠ []) :
    ∃ c, c ∈ (windowRows db).map (·.Category) ∧
      (∀ c', ((windowRows db).map (·.Category)).count c'
        ≤ ((windowRows db).map (·.Category)).count c) ∧
      (getStats db).MostTrained = if c = "" then "None" else c := by
  obtain ⟨c, hq, hmem, hmax⟩ := (queryTop_spec db hok).2 hne
  refine ⟨c, hmem, hmax, ?_⟩
  rw [getStats_mostTrained, hq]
  rfl

theorem count_category_insert (now : Int) (tie : Nat) (pre post : List RoutineRecord)
    (r : RoutineRecord) (c : String) :
    ((windowRows ⟨pre ++ r :: post, now, fun _ => false, tie⟩).map (·.Category)).count c
      = ((windowRows ⟨pre ++ post, now, fun _ => false, tie⟩).map (·.Category)).count c
        + (if inWindow now r = true ∧ r.Category = c then 1 else 0) := by
  rw [windowRows_insert, windowRows_append]
  by_cases hin : inWindow now r = true
  · by_cases hc : r.Category = c
    · simp [hin, hc, List.count_cons]
      ring
    · simp [hin, hc, List.count_cons]
  · simp [hin]

/-! ## The claims about the window, the grouping and the failures -/

/-- C6, as claimed, fails: with today = day 100 a row dated day 93, seven days
back and outside `[today - 6, today]`, is counted, summed, grouped and scanned,
and so is a row dated day 101, after today. -/
theorem window_counterexample :
    ¬ ((100 : Int) - 6 ≤ 93 ∧ (93 : Int) ≤ 100) ∧
    getStats ⟨[⟨1, 30, some 93, "Run", "rice"⟩], 100, fun _ => false, 0⟩ = ⟨1, 30, "Run"⟩ ∧
    queryMeals ⟨[⟨1, 30, some 93, "Run", "rice"⟩], 100, fun _ => false, 0⟩ = some ["rice"] ∧
    ¬ ((100 : Int) - 6 ≤ 101 ∧ (101 : Int) ≤ 100) ∧
    getStats ⟨[⟨1, 30, some 101, "Run", "rice"⟩], 100, fun _ => false, 0⟩ = ⟨1, 30, "Run"⟩ ∧
    queryMeals ⟨[⟨1, 30, some 101, "Run", "rice"⟩], 100, fun _ => false, 0⟩ = some ["rice"] := by
  decide

/-- C6, amended. A row is among the rows that the count, the sum, the grouping
behind `mostTrained` and the meal scan work on if and only if its date is a date
and lies on or after the day seven days before today, with no upper limit.
Adding such a row to a store raises `totalWorkouts` by one, raises `totalMinutes`
by its duration whenever the sum stays in the 64-bit range with and without the
row, enters its category with one more row into the selection of `mostTrained`,
and puts its meal in the scan; adding any other row changes nothing. -/
theorem window_contribution (now : Int) (tie : Nat) (pre post : List RoutineRecord)
    (r : RoutineRecord) :
    (inWindow now r = true ↔ ∃ d, r.Date = some d ∧ now - 7 ≤ d) ∧
    windowRows ⟨pre ++ r :: post, now, fun _ => false, tie⟩
      = windowRows ⟨pre, now, fun _ => false, tie⟩ ++ (if inWindow now r then [r] else [])
        ++ windowRows ⟨post, now, fun _ => false, tie⟩ ∧
    (getStats ⟨pre ++ r :: post, now, fun _ => false, tie⟩).TotalWorkouts
      = (getStats ⟨pre ++ post, now, fun _ => false, tie⟩).TotalWorkouts
        + (if inWindow now r then 1 else 0) ∧
    ((querySum ⟨pre ++ r :: post, now, fun _ => false, tie⟩).isSome = true →
      (querySum ⟨pre ++ post, now, fun _ => false, tie⟩).isSome = true →
      (getStats ⟨pre ++ r :: post, now, fun _ => false, tie⟩).TotalMinutes
        = (getStats ⟨pre ++ post, now, fun _ => false, tie⟩).TotalMinutes
          + (if inWindow now r then r.Duration else 0)) ∧
    (∀ c, ((windowRows ⟨pre ++ r :: post, now, fun _ => false, tie⟩).map (·.Category)).count c
      = ((windowRows ⟨pre ++ post, now, fun _ => false, tie⟩).map (·.Category)).count c
        + (if inWindow now r = true ∧ r.Category = c then 1 else 0)) ∧
    (inWindow now r = true →
      ∃ c, (c = r.Category
          ∨ c ∈ (windowRows ⟨pre ++ post, now, fun _ => false, tie⟩).map (·.Category)) ∧
        (∀ c',
          ((windowRows ⟨pre ++ post, now, fun _ => false, tie⟩).map (·.Category)).count c'
              + (if r.Category = c' then 1 else 0)
            ≤ ((windowRows ⟨pre ++ post, now, fun _ => false, tie⟩).map (·.Category)).count c
              + (if r.Category = c then 1 else 0)) ∧
        (getStats ⟨pre ++ r :: post, now, fun _ => false, tie⟩).MostTrained
          = if c = "" then "None" else c) ∧
    queryMeals ⟨pre ++ r :: post, now, fun _ => false, tie⟩
      = some ((windowRows ⟨pre, now, fun _ => false, tie⟩).map (·.Meal)
          ++ (if inWindow now r then [r.Meal] else [])
          ++ (windowRows ⟨post, now, fun _ => false, tie⟩).map (·.Meal)) ∧
    (inWindow now r = false →
      getStats ⟨pre ++ r :: post, now, fun _ => false, tie⟩
        = getStats ⟨pre ++ post, now, fun _ => false, tie⟩ ∧
      queryMeals ⟨pre ++ r :: post, now, fun _ => false, tie⟩
        = queryMeals ⟨pre ++ post, now, fun _ => false, tie⟩) := by
  have hi := windowRows_insert now (fun _ => false) tie pre post r
  have ha := windowRows_append now (fun _ => false) tie pre post
  refine ⟨inWindow_iff now r, hi, ?_, ?_, count_category_insert now tie pre post r, ?_, ?_, ?_⟩
  · rw [getStats_totalWorkouts _ rfl, getStats_totalWorkouts _ rfl, hi, ha]
    split_ifs
    · simp only [List.length_append, List.length_singleton]
      push_cast
      ring
    · simp
  · intro hs1 hs2
    rw [getStats_totalMinutes_of_isSome _ rfl hs1, getStats_totalMinutes_of_isSome _ rfl hs2,
      hi, ha]
    split_ifs
    · simp only [List.map_append, List.sum_append, List.map_singleton, List.sum_singleton]
      ring
    · simp
  · intro hin
    have hne : windowRows ⟨pre ++ r :: post, now, fun _ => false, tie⟩ ≠ [] := by
      rw [hi, hin]
      simp
    obtain ⟨c, hmem, hmax, hmt⟩ :=
      getStats_mostTrained_of_window ⟨pre ++ r :: post, now, fun _ => false, tie⟩ rfl hne
    refine ⟨c, ?_, ?_, hmt⟩
    · rw [hi, hin] at hmem
      rw [ha]
      simp only [if_true, List.map_append, List.map_singleton, List.mem_append,
        List.mem_singleton] at hmem ⊢
      tauto
    · intro c'
      have h1 := count_category_insert now tie pre post r c'
      have h2 := count_category_insert now tie pre post r c
      have h3 := hmax c'
      simp only [hin, true_and] at h1 h2
      rw [h1, h2] at h3
      exact h3
  · simp only [queryMeals, Bool.false_eq_true, if_false, hi]
    split_ifs <;> simp
  · intro hout
    have hw : windowRows ⟨pre ++ r :: post, now, fun _ => false, tie⟩
        = windowRows ⟨pre ++ post, now, fun _ => false, tie⟩ := by
      rw [hi, ha, hout]
      simp
    constructor
    · simp only [getStats, queryCount, querySum, queryTop, hw]
    · simp only [queryMeals, hw]

theorem window_contribution_witness :
    (getStats ⟨[⟨1, 30, some 99, "Lift", "pizza"⟩] ++ ⟨2, 45, some 93, "Run", "rice"⟩
        :: [⟨3, 20, some 92, "Swim", "apple"⟩], 100, fun _ => false, 0⟩).TotalMinutes
      = (getStats ⟨[⟨1, 30, some 99, "Lift", "pizza"⟩] ++ [⟨3, 20, some 92, "Swim", "apple"⟩],
          100, fun _ => false, 0⟩).TotalMinutes
        + (if inWindow 100 ⟨2, 45, some 93, "Run", "rice"⟩
            then (⟨2, 45, some 93, "Run", "rice"⟩ : RoutineRecord).Duration else 0) ∧
    (getStats ⟨[⟨1, 30, some 99, "Lift", "pizza"⟩] ++ ⟨2, 45, some 93, "Run", "rice"⟩
        :: [⟨3, 20, some 92, "Swim", "apple"⟩], 100, fun _ => false, 0⟩) = ⟨2, 75, "Lift"⟩ ∧
    (getStats ⟨[⟨1, 30, some 99, "Lift", "pizza"⟩] ++ [⟨3, 20, some 92, "Swim", "apple"⟩],
        100, fun _ => false, 0⟩) = ⟨1, 30, "Lift"⟩ :=
  ⟨(window_contribution 100 0 [⟨1, 30, some 99, "Lift", "pizza"⟩]
      [⟨3, 20, some 92, "Swim", "apple"⟩] ⟨2, 45, some 93, "Run", "rice"⟩).2.2.2.1
      (by decide) (by decide),
    by decide, by decide⟩

/-- C7, as claimed, fails: the window holds one row, its category is the empty
string, and `getStats` answers "None", which is the category of no row. -/
theorem mostTrained_counterexample :
    windowRows ⟨[⟨1, 30, some 100, "", "rice"⟩], 100, fun _ => false, 0⟩ ≠ [] ∧
    (getStats ⟨[⟨1, 30, some 100, "", "rice"⟩], 100, fun _ => false, 0⟩).MostTrained = "None" ∧
    "None" ∉ (windowRows ⟨[⟨1, 30, some 100, "", "rice"⟩], 100, fun _ => false, 0⟩).map
      (·.Category) := by
  decide

/-- C7, amended. When the grouping query succeeds, `getStats` returns "None" for a
window without rows; for any other window it selects the category `c` of some
row in the window such that no category has more rows in the window, and returns
`c`, except that it returns "None" when `c` is the empty string. -/
theorem mostTrained_selection (db : DB) (hok : db.failing Query.top = false) :
    (windowRows db = [] → (getStats db).MostTrained = "None") ∧
    (windowRows db ≠ [] → ∃ c, c ∈ (windowRows db).map (·.Category) ∧
      (∀ c', ((windowRows db).map (·.Category)).count c'
        ≤ ((windowRows db).map (·.Category)).count c) ∧
      (getStats db).MostTrained = if c = "" then "None" else c) := by
  obtain ⟨h1, h2⟩ := queryTop_spec db hok
  constructor
  · intro hnil
    rw [getStats_mostTrained, h1 hnil]
    rfl
  · intro hne
    obtain ⟨c, hq, hmem, hmax⟩ := h2 hne
    refine ⟨c, hmem, hmax, ?_⟩
    rw [getStats_mostTrained, hq]
    rfl

theorem mostTrained_selection_witness :
    (⟨[⟨1, 30, some 100, "Run", "rice"⟩, ⟨2, 20, some 99, "Lift", "pizza"⟩,
        ⟨3, 45, some 98, "Run", "apple"⟩], 100, fun _ => false, 0⟩ : DB).failing Query.top
      = false ∧
    ((windowRows ⟨[⟨1, 30, some 100, "Run", "rice"⟩, ⟨2, 20, some 99, "Lift", "pizza"⟩,
        ⟨3, 45, some 98, "Run", "apple"⟩], 100, fun _ => false, 0⟩ = [] →
      (getStats ⟨[⟨1, 30, some 100, "Run", "rice"⟩, ⟨2, 20, some 99, "Lift", "pizza"⟩,
        ⟨3, 45, some 98, "Run", "apple"⟩], 100, fun _ => false, 0⟩).MostTrained = "None") ∧
    (windowRows ⟨[⟨1, 30, some 100, "Run", "rice"⟩, ⟨2, 20, some 99, "Lift", "pizza"⟩,
        ⟨3, 45, some 98, "Run", "apple"⟩], 100, fun _ => false, 0⟩ ≠ [] →
      ∃ c, c ∈ (windowRows ⟨[⟨1, 30, some 100, "Run", "rice"⟩, ⟨2, 20, some 99, "Lift", "pizza"⟩,
        ⟨3, 45, some 98, "Run", "apple"⟩], 100, fun _ => false, 0⟩).map (·.Category) ∧
      (∀ c', ((windowRows ⟨[⟨1, 30, some 100, "Run", "rice"⟩, ⟨2, 20, some 99, "Lift", "pizza"⟩,
          ⟨3, 45, some 98, "Run", "apple"⟩], 100, fun _ => false, 0⟩).map (·.Category)).count c'
        ≤ ((windowRows ⟨[⟨1, 30, some 100, "Run", "rice"⟩, ⟨2, 20, some 99, "Lift", "pizza"⟩,
          ⟨3, 45, some 98, "Run", "apple"⟩], 100, fun _ => false, 0⟩).map (·.Category)).count c) ∧
      (getStats ⟨[⟨1, 30, some 100, "Run", "rice"⟩, ⟨2, 20, some 99, "Lift", "pizza"⟩,
        ⟨3, 45, some 98, "Run", "apple"⟩], 100, fun _ => false, 0⟩).MostTrained
          = if c = "" then "None" else c)) :=
  ⟨rfl, mostTrained_selection ⟨[⟨1, 30, some 100, "Run", "rice"⟩,
    ⟨2, 20, some 99, "Lift", "pizza"⟩, ⟨3, 45, some 98, "Run", "apple"⟩], 100,
    fun _ => false, 0⟩ rfl⟩

/-- C8, as claimed, fails: with a row in the window and every query failing,
`getStats` returns what it returns for an empty table whose queries succeed. -/
theorem failure_counterexample :
    getStats ⟨[⟨1, 30, some 100, "Run", "rice"⟩], 100, fun _ => true, 0⟩
      = getStats ⟨[], 100, fun _ => false, 0⟩ ∧
    getStats ⟨[⟨1, 30, some 100, "Run", "rice"⟩], 100, fun _ => true, 0⟩ = ⟨0, 0, "None"⟩ := by
  decide

/-- C8, amended. A failing query of `getStats` is not surfaced: when its three
queries fail the result is `totalWorkouts = 0`, `totalMinutes = 0`,
`mostTrained = "None"`, the result for an empty window, and `getProgressReport`
computes its report from these values; only a failing meal query keeps
`getProgressReport` from returning a report. -/
theorem failure_swallowed (toLower : String → String) (db : DB)
    (hcount : db.failing Query.count = true) (hsum : db.failing Query.sum = true)
    (htop : db.failing Query.top = true) :
    getStats db = ⟨0, 0, "None"⟩ ∧
    getStats db = getStats ⟨[], db.now, fun _ => false, db.tieBreak⟩ ∧
    getProgressReport toLower db
      = if db.failing Query.meals then none
        else some (reportOf toLower ⟨0, 0, "None"⟩ ((windowRows db).map (·.Meal))) := by
  have h1 : getStats db = ⟨0, 0, "None"⟩ := by
    simp [getStats, queryCount, querySum, queryTop, scanInto, hcount, hsum, htop]
  have h2 : getStats ⟨[], db.now, fun _ => false, db.tieBreak⟩ = ⟨0, 0, "None"⟩ := by
    simp [getStats, queryCount, querySum, queryTop, scanInto, windowRows, topCategories_nil,
      sqlSum]
  refine ⟨h1, h1.trans h2.symm, ?_⟩
  unfold getProgressReport
  rw [h1]
  by_cases hm : db.failing Query.meals = true
  · simp [queryMeals, hm]
  · simp [queryMeals, hm]

theorem failure_swallowed_witness :
    (⟨[⟨1, 30, some 100, "Run", "rice"⟩], 100, fun q => decide (q ≠ Query.meals), 0⟩ : DB).failing
      Query.count = true ∧
    (⟨[⟨1, 30, some 100, "Run", "rice"⟩], 100, fun q => decide (q ≠ Query.meals), 0⟩ : DB).failing
      Query.sum = true ∧
    (⟨[⟨1, 30, some 100, "Run", "rice"⟩], 100, fun q => decide (q ≠ Query.meals), 0⟩ : DB).failing
      Query.top = true ∧
    getStats ⟨[⟨1, 30, some 100, "Run", "rice"⟩], 100, fun q => decide (q ≠ Query.meals), 0⟩
      = ⟨0, 0, "None"⟩ ∧
    getStats ⟨[⟨1, 30, some 100, "Run", "rice"⟩], 100, fun q => decide (q ≠ Query.meals), 0⟩
      = getStats ⟨[], (⟨[⟨1, 30, some 100, "Run", "rice"⟩], 100,
          fun q => decide (q ≠ Query.meals), 0⟩ : DB).now, fun _ => false,
          (⟨[⟨1, 30, some 100, "Run", "rice"⟩], 100,
            fun q => decide (q ≠ Query.meals), 0⟩ : DB).tieBreak⟩ ∧
    getProgressReport asciiToLower
        ⟨[⟨1, 30, some 100, "Run", "rice"⟩], 100, fun q => decide (q ≠ Query.meals), 0⟩
      = if (⟨[⟨1, 30, some 100, "Run", "rice"⟩], 100,
            fun q => decide (q ≠ Query.meals), 0⟩ : DB).failing Query.meals then none
        else some (reportOf asciiToLower ⟨0, 0, "None"⟩
          ((windowRows ⟨[⟨1, 30, some 100, "Run", "rice"⟩], 100,
            fun q => decide (q ≠ Query.meals), 0⟩).map (·.Meal))) :=
  ⟨by decide, by decide, by decide,
    failure_swallowed asciiToLower
      ⟨[⟨1, 30, some 100, "Run", "rice"⟩], 100, fun q => decide (q ≠ Query.meals), 0⟩
      (by decide) (by decide) (by decide)⟩

/-- C9, as claimed, fails: a row of today with duration -60 is not skipped; the
statistics and the report of the store that holds it differ from those of the
store without it. -/
theorem negative_duration_counterexample :
    getStats ⟨[⟨1, -60, some 100, "Run", "rice"⟩], 100, fun _ => false, 0⟩ = ⟨1, -60, "Run"⟩ ∧
    getStats ⟨[], 100, fun _ => false, 0⟩ = ⟨0, 0, "None"⟩ ∧
    getProgressReport asciiToLower ⟨[⟨1, -60, some 100, "Run", "rice"⟩], 100, fun _ => false, 0⟩
      = some ⟨30, "Beginner", "Healthy", 25⟩ ∧
    getProgressReport asciiToLower ⟨[], 100, fun _ => false, 0⟩
      = some ⟨0, "Beginner", "Unbalanced", 0⟩ := by
  decide!

/-- C9, amended. A row in the window with a negative duration is aggregated like
every other row: it adds one to `totalWorkouts` and its meal is scanned, so the
statistics with the row always differ from the statistics without it; and
whenever the sum stays in the 64-bit range with and without the row, it adds its
negative duration to `totalMinutes`, which is then smaller than without it. -/
theorem negative_duration_counted (now : Int) (tie : Nat) (pre post : List RoutineRecord)
    (r : RoutineRecord) (hin : inWindow now r = true) (hneg : r.Duration < 0) :
    (getStats ⟨pre ++ r :: post, now, fun _ => false, tie⟩).TotalWorkouts
      = (getStats ⟨pre ++ post, now, fun _ => false, tie⟩).TotalWorkouts + 1 ∧
    queryMeals ⟨pre ++ r :: post, now, fun _ => false, tie⟩
      = some ((windowRows ⟨pre, now, fun _ => false, tie⟩).map (·.Meal)
          ++ r.Meal :: (windowRows ⟨post, now, fun _ => false, tie⟩).map (·.Meal)) ∧
    getStats ⟨pre ++ r :: post, now, fun _ => false, tie⟩
      ≠ getStats ⟨pre ++ post, now, fun _ => false, tie⟩ ∧
    ((querySum ⟨pre ++ r :: post, now, fun _ => false, tie⟩).isSome = true →
      (querySum ⟨pre ++ post, now, fun _ => false, tie⟩).isSome = true →
      (getStats ⟨pre ++ r :: post, now, fun _ => false, tie⟩).TotalMinutes
        = (getStats ⟨pre ++ post, now, fun _ => false, tie⟩).TotalMinutes + r.Duration ∧
      (getStats ⟨pre ++ r :: post, now, fun _ => false, tie⟩).TotalMinutes
        < (getStats ⟨pre ++ post, now, fun _ => false, tie⟩).TotalMinutes) := by
  have hi := windowRows_insert now (fun _ => false) tie pre post r
  have ha := windowRows_append now (fun _ => false) tie pre post
  rw [hin] at hi
  have hw : (getStats ⟨pre ++ r :: post, now, fun _ => false, tie⟩).TotalWorkouts
      = (getStats ⟨pre ++ post, now, fun _ => false, tie⟩).TotalWorkouts + 1 := by
    rw [getStats_totalWorkouts _ rfl, getStats_totalWorkouts _ rfl, hi, ha]
    simp only [if_true, List.length_append, List.length_singleton]
    push_cast
    ring
  refine ⟨hw, ?_, ?_, ?_⟩
  · simp only [queryMeals, Bool.false_eq_true, if_false, hi]
    simp
  · intro heq
    rw [heq] at hw
    omega
  · intro hs1 hs2
    have hm : (getStats ⟨pre ++ r :: post, now, fun _ => false, tie⟩).TotalMinutes
        = (getStats ⟨pre ++ post, now, fun _ => false, tie⟩).TotalMinutes + r.Duration := by
      rw [getStats_totalMinutes_of_isSome _ rfl hs1, getStats_totalMinutes_of_isSome _ rfl hs2,
        hi, ha]
      simp only [if_true, List.map_append, List.sum_append, List.map_singleton,
        List.sum_singleton]
      ring
    exact ⟨hm, by omega⟩

theorem negative_duration_counted_witness :
    inWindow 100 ⟨2, -60, some 100, "Run", "rice"⟩ = true ∧
    (⟨2, -60, some 100, "Run", "rice"⟩ : RoutineRecord).Duration < 0 ∧
    ((getStats ⟨[⟨1, 30, some 99, "Lift", "pizza"⟩] ++ ⟨2, -60, some 100, "Run", "rice"⟩ :: [],
        100, fun _ => false, 0⟩).TotalWorkouts
      = (getStats ⟨[⟨1, 30, some 99, "Lift", "pizza"⟩] ++ [], 100, fun _ => false,
          0⟩).TotalWorkouts + 1 ∧
    queryMeals ⟨[⟨1, 30, some 99, "Lift", "pizza"⟩] ++ ⟨2, -60, some 100, "Run", "rice"⟩ :: [],
        100, fun _ => false, 0⟩
      = some ((windowRows ⟨[⟨1, 30, some 99, "Lift", "pizza"⟩], 100, fun _ => false, 0⟩).map
            (·.Meal)
          ++ (⟨2, -60, some 100, "Run", "rice"⟩ : RoutineRecord).Meal
            :: (windowRows ⟨[], 100, fun _ => false, 0⟩).map (·.Meal)) ∧
    getStats ⟨[⟨1, 30, some 99, "Lift", "pizza"⟩] ++ ⟨2, -60, some 100, "Run", "rice"⟩ :: [],
        100, fun _ => false, 0⟩
      ≠ getStats ⟨[⟨1, 30, some 99, "Lift", "pizza"⟩] ++ [], 100, fun _ => false, 0⟩) ∧
    ((getStats ⟨[⟨1, 30, some 99, "Lift", "pizza"⟩] ++ ⟨2, -60, some 100, "Run", "rice"⟩ :: [],
        100, fun _ => false, 0⟩).TotalMinutes
      = (getStats ⟨[⟨1, 30, some 99, "Lift", "pizza"⟩] ++ [], 100, fun _ => false,
          0⟩).TotalMinutes + (⟨2, -60, some 100, "Run", "rice"⟩ : RoutineRecord).Duration ∧
    (getStats ⟨[⟨1, 30, some 99, "Lift", "pizza"⟩] ++ ⟨2, -60, some 100, "Run", "rice"⟩ :: [],
        100, fun _ => false, 0⟩).TotalMinutes
      < (getStats ⟨[⟨1, 30, some 99, "Lift", "pizza"⟩] ++ [], 100, fun _ => false,
          0⟩).TotalMinutes) ∧
    getStats ⟨[⟨1, 30, some 99, "Lift", "pizza"⟩] ++ ⟨2, -60, some 100, "Run", "rice"⟩ :: [],
        100, fun _ => false, 0⟩ = ⟨2, -30, "Lift"⟩ :=
  ⟨by decide, by decide,
    ⟨(negative_duration_counted 100 0 [⟨1, 30, some 99, "Lift", "pizza"⟩] []
        ⟨2, -60, some 100, "Run", "rice"⟩ (by decide) (by decide)).1,
      (negative_duration_counted 100 0 [⟨1, 30, some 99, "Lift", "pizza"⟩] []
        ⟨2, -60, some 100, "Run", "rice"⟩ (by decide) (by decide)).2.1,
      (negative_duration_counted 100 0 [⟨1, 30, some 99, "Lift", "pizza"⟩] []
        ⟨2, -60, some 100, "Run", "rice"⟩ (by decide) (by decide)).2.2.1⟩,
    (negative_duration_counted 100 0 [⟨1, 30, some 99, "Lift", "pizza"⟩] []
        ⟨2, -60, some 100, "Run", "rice"⟩ (by decide) (by decide)).2.2.2 (by decide) (by decide),
    by decide⟩

end FitTrack
